import Mathlib

/-!
Verification of the rule-manager tool `ls_manage.py`.

We shallowly embed the program's pure core: the fingerprinter
(`get_binary_hash`), the anchor resolver (`find_code_requirement_key`),
the configuration mutator (the body of `update_rule` between the export
and the restore), and the restore/rollback tail of `update_rule`
together with `run_command`.  External collaborators (the filesystem,
the clock, the external store command) are modelled as explicit
parameters.
-/

namespace LsManage

/-! ### String helpers

Python's `needle in hay` substring test and `str.split("/")`,
modelled over the character list of a string. -/

/-- Predicate `leadsWith n h` is true when character list `n` is an initial
segment of `h`. -/
def leadsWith : List Char → List Char → Bool
  | [], _ => true
  | _ :: _, [] => false
  | a :: as, b :: bs => a == b && leadsWith as bs

/-- Predicate `hasSub n h` is true when `n` occurs as a contiguous sublist of `h`;
this is Python's `n in h` on strings. -/
def hasSub (needle : List Char) : List Char → Bool
  | [] => leadsWith needle []
  | c :: rest => leadsWith needle (c :: rest) || hasSub needle rest

/-- Python's substring containment `needle in hay`. -/
def strContains (hay needle : String) : Bool :=
  hasSub needle.data hay.data

/-- Auxiliary for Python's `s.split("/")`: splits a character list at
every `'/'`, keeping empty pieces, with `cur` the (reversed) piece
accumulated so far. -/
def splitSlashAux (cur : List Char) : List Char → List (List Char)
  | [] => [cur.reverse]
  | c :: rest =>
      if c = '/' then cur.reverse :: splitSlashAux [] rest
      else splitSlashAux (c :: cur) rest

/-- Python's `s.split("/")`. -/
def splitSlash (s : String) : List String :=
  (splitSlashAux [] s.data).map String.mk

/-! ### Chunked reading

`get_binary_hash` reads the file in blocks of 4096 bytes
(`iter(lambda: f.read(4096), b"")`).  `chunksOf n l` is the sequence of
blocks such a read loop produces. -/

/-- The list of successive blocks of `n` elements read from `l`
(the last block may be shorter); empty when `l` is exhausted or `n = 0`. -/
def chunksOf (n : Nat) (l : List Nat) : List (List Nat) :=
  if l = [] ∨ n = 0 then []
  else l.take n :: chunksOf n (l.drop n)
termination_by l.length
decreasing_by
  simp only [List.length_drop]
  rename_i h
  push_neg at h
  have h1 : l.length ≠ 0 := by simpa [List.length_eq_zero] using h.1
  omega

theorem chunksOf_flatten (n : Nat) (hn : n ≠ 0) (l : List Nat) :
    (chunksOf n l).flatten = l := by
  induction l using chunksOf.induct n with
  | case1 l h =>
      rcases h with h | h
      · simp [chunksOf, h]
      · exact absurd h hn
  | case2 l h ih =>
      rw [chunksOf]
      simp only [if_neg h, List.flatten]
      rw [ih]
      exact List.take_append_drop n l

/-! ### SHA-256

A reference implementation of SHA-256 over byte lists (each byte a
`Nat < 256`), modelling Python's `hashlib.sha256`.  Words are `Nat`s
reduced modulo `2 ^ 32`. -/

/-- Truncate to a 32-bit word. -/
def w32 (x : Nat) : Nat := x % 4294967296

/-- 32-bit addition. -/
def add32 (a b : Nat) : Nat := w32 (a + b)

/-- Right rotation of a 32-bit word by `n` places. -/
def rotr (n x : Nat) : Nat := w32 ((x >>> n) ||| (x <<< (32 - n)))

/-- Bitwise complement of a 32-bit word. -/
def bnot32 (x : Nat) : Nat := x ^^^ 4294967295

def shaCh (x y z : Nat) : Nat := (x &&& y) ^^^ (bnot32 x &&& z)

def shaMaj (x y z : Nat) : Nat := (x &&& y) ^^^ (x &&& z) ^^^ (y &&& z)

def bigSigma0 (x : Nat) : Nat := rotr 2 x ^^^ rotr 13 x ^^^ rotr 22 x

def bigSigma1 (x : Nat) : Nat := rotr 6 x ^^^ rotr 11 x ^^^ rotr 25 x

def smallSigma0 (x : Nat) : Nat := rotr 7 x ^^^ rotr 18 x ^^^ (x >>> 3)

def smallSigma1 (x : Nat) : Nat := rotr 17 x ^^^ rotr 19 x ^^^ (x >>> 10)

/-- The SHA-256 round constants (FIPS 180-4, in decimal). -/
def shaK : List Nat :=
  [1116352408, 1899447441, 3049323471, 3921009573, 961987163,
   1508970993, 2453635748, 2870763221, 3624381080, 310598401,
   607225278, 1426881987, 1925078388, 2162078206, 2614888103,
   3248222580, 3835390401, 4022224774, 264347078, 604807628,
   770255983, 1249150122, 1555081692, 1996064986, 2554220882,
   2821834349, 2952996808, 3210313671, 3336571891, 3584528711,
   113926993, 338241895, 666307205, 773529912, 1294757372,
   1396182291, 1695183700, 1986661051, 2177026350, 2456956037,
   2730485921, 2820302411, 3259730800, 3345764771, 3516065817,
   3600352804, 4094571909, 275423344, 430227734, 506948616,
   659060556, 883997877, 958139571, 1322822218, 1537002063,
   1747873779, 1955562222, 2024104815, 2227730452, 2361852424,
   2428436474, 2756734187, 3204031479, 3329325298]

/-- The eight working variables of the compression function. -/
structure Hash8 where
  a : Nat
  b : Nat
  c : Nat
  d : Nat
  e : Nat
  f : Nat
  g : Nat
  h : Nat
deriving DecidableEq

/-- The SHA-256 initial hash value (FIPS 180-4, in decimal). -/
def shaH0 : Hash8 :=
  ⟨1779033703, 3144134277, 1013904242, 2773480762,
   1359893119, 2600822924, 528734635, 1541459225⟩

/-- The big-endian 8-byte encoding of `n` (the message bit length). -/
def be64 (n : Nat) : List Nat :=
  [(n >>> 56) % 256, (n >>> 48) % 256, (n >>> 40) % 256, (n >>> 32) % 256,
   (n >>> 24) % 256, (n >>> 16) % 256, (n >>> 8) % 256, n % 256]

/-- SHA-256 padding: append `0x80`, zeros to 56 mod 64, then the
bit length as 8 big-endian bytes. -/
def padMessage (msg : List Nat) : List Nat :=
  let z := (119 - msg.length % 64) % 64
  msg ++ [128] ++ List.replicate z 0 ++ be64 (8 * msg.length)

/-- Group bytes into big-endian 32-bit words. -/
def bytesToWords : List Nat → List Nat
  | a :: b :: c :: d :: rest => (((a * 256 + b) * 256 + c) * 256 + d) :: bytesToWords rest
  | _ => []

/-- One extension step of the message schedule: append
`σ1 w[i-2] + w[i-7] + σ0 w[i-15] + w[i-16]`. -/
def scheduleStep (w : Array Nat) : Array Nat :=
  let i := w.size
  w.push (add32 (add32 (smallSigma1 (w.getD (i - 2) 0)) (w.getD (i - 7) 0))
               (add32 (smallSigma0 (w.getD (i - 15) 0)) (w.getD (i - 16) 0)))

/-- The 64-entry message schedule of one 16-word block. -/
def fullSchedule (block : List Nat) : Array Nat :=
  (List.range 48).foldl (fun w _ => scheduleStep w) block.toArray

/-- One compression round with round constant `k` and schedule word `w`. -/
def shaRound (s : Hash8) (k w : Nat) : Hash8 :=
  let t1 := add32 s.h (add32 (bigSigma1 s.e) (add32 (shaCh s.e s.f s.g) (add32 k w)))
  let t2 := add32 (bigSigma0 s.a) (shaMaj s.a s.b s.c)
  ⟨add32 t1 t2, s.a, s.b, s.c, add32 s.d t1, s.e, s.f, s.g⟩

/-- Compress one 64-byte block into the running hash value. -/
def compressBlock (s0 : Hash8) (blockBytes : List Nat) : Hash8 :=
  let w := fullSchedule (bytesToWords blockBytes)
  let s := (List.range 64).foldl
    (fun s i => shaRound s (shaK.getD i 0) (w.getD i 0)) s0
  ⟨add32 s0.a s.a, add32 s0.b s.b, add32 s0.c s.c, add32 s0.d s.d,
   add32 s0.e s.e, add32 s0.f s.f, add32 s0.g s.g, add32 s0.h s.h⟩

/-- The SHA-256 state after absorbing the whole (padded) message. -/
def sha256State (msg : List Nat) : Hash8 :=
  (chunksOf 64 (padMessage msg)).foldl compressBlock shaH0

/-- Big-endian bytes of a 32-bit word. -/
def wordBytesBE (w : Nat) : List Nat :=
  [(w >>> 24) % 256, (w >>> 16) % 256, (w >>> 8) % 256, w % 256]

/-- The 32-byte SHA-256 digest of a byte list. -/
def sha256Bytes (msg : List Nat) : List Nat :=
  let s := sha256State msg
  wordBytesBE s.a ++ wordBytesBE s.b ++ wordBytesBE s.c ++ wordBytesBE s.d ++
  wordBytesBE s.e ++ wordBytesBE s.f ++ wordBytesBE s.g ++ wordBytesBE s.h

/-- The sixteen lowercase hexadecimal digit characters. -/
def hexDigit (n : Nat) : Char :=
  "0123456789abcdef".data.getD n 'x'

/-- Two lowercase hex characters of one byte. -/
def byteToHex (b : Nat) : List Char :=
  [hexDigit (b / 16), hexDigit (b % 16)]

/-- The lowercase hex encoding of the SHA-256 digest, as produced by
`hashlib`'s `hexdigest()`. -/
def sha256hex (msg : List Nat) : String :=
  String.mk ((sha256Bytes msg).map byteToHex).flatten

/-! ### hashlib object model

`hashlib.sha256()` returns an object whose `update` absorbs bytes and
whose `hexdigest` returns the digest of everything absorbed so far;
per its documentation, repeated `update` calls are equivalent to one
call on the concatenation.  We model the object by the bytes absorbed. -/

/-- Model of a `hashlib.sha256()` object: the bytes fed to it so far. -/
structure Sha256Obj where
  absorbed : List Nat
deriving DecidableEq

/-- Method `m.update(b)`: absorb further bytes. -/
def Sha256Obj.update (m : Sha256Obj) (b : List Nat) : Sha256Obj :=
  ⟨m.absorbed ++ b⟩

/-- Method `m.hexdigest()`: the lowercase hex SHA-256 digest of all absorbed
bytes. -/
def Sha256Obj.hexdigest (m : Sha256Obj) : String :=
  sha256hex m.absorbed

/-! ### Filesystem model

The program touches the filesystem through `os.path.realpath` and
`open(...).read`.  We model these as explicit parameters: a resolution
function and a partial map from (resolved) paths to byte contents.
POSIX `realpath` returns a canonical path, so resolving an already
resolved path is the identity; that well-formedness fact is part of the
model. -/

structure FileSystem where
  /-- Function `os.path.realpath`: resolve symlinks to the canonical path. -/
  realpath : String → String
  /-- The byte content stored at a path; `none` when no file exists
  (`os.path.exists` is false). -/
  files : String → Option (List Nat)
  /-- Canonical paths resolve to themselves. -/
  realpath_idem : ∀ p, realpath (realpath p) = realpath p

/-- Function `get_binary_hash` (ls_manage.py lines 26-40): resolve the path,
fail when the resolved file does not exist (the script exits), else
feed the content to `hashlib.sha256` in 4096-byte blocks and return the
hex digest. -/
def get_binary_hash (fs : FileSystem) (path : String) : Option String :=
  let resolved_path := fs.realpath path
  match fs.files resolved_path with
  | none => none
  | some content =>
      some (((chunksOf 4096 content).foldl Sha256Obj.update ⟨[]⟩).hexdigest)

theorem foldl_update_absorbed (chunks : List (List Nat)) (acc : List Nat) :
    (chunks.foldl Sha256Obj.update ⟨acc⟩).absorbed = acc ++ chunks.flatten := by
  induction chunks generalizing acc with
  | nil => simp
  | cons c rest ih =>
      simp only [List.foldl_cons, Sha256Obj.update, List.flatten_cons, ih,
        List.append_assoc]

/-- The chunked read loop hashes exactly the full content. -/
theorem get_binary_hash_eq (fs : FileSystem) (p : String) (c : List Nat)
    (hp : fs.files (fs.realpath p) = some c) :
    get_binary_hash fs p = some (sha256hex c) := by
  simp only [get_binary_hash, hp, Sha256Obj.hexdigest, Option.some.injEq]
  rw [foldl_update_absorbed, chunksOf_flatten 4096 (by omega), List.nil_append]

/-! ### Configuration model

The exported JSON model.  A trust anchor is a JSON object read through
`.get("type")`, `.get("codeIdentifier")` and key tests on
`"authorIdentifier"`; missing keys are modelled by `Option`.  A rule is
read only through `.get("process")`; the rules the tool itself builds
populate the remaining fields.  Top-level keys other than
`codeRequirements` and `rules` are never touched and are kept opaque in
`other`. -/

structure TrustAnchor where
  type : Option String
  codeIdentifier : Option String
  authorIdentifier : Option String
deriving DecidableEq

structure Rule where
  action : Option String
  process : Option String
  ports : Option String
  protocol : Option String
  direction : Option String
  remote : Option String
  origin : Option String
  creationDate : Option String
  modificationDate : Option String
  uid : Option Nat
deriving DecidableEq

structure Config where
  /-- The `codeRequirements` mapping, in insertion order; `none` when
  the key is absent from the JSON object. -/
  codeRequirements : Option (List (String × TrustAnchor))
  /-- The `rules` array; `none` when the key is absent. -/
  rules : Option (List Rule)
  /-- All other top-level entries, opaque to the tool. -/
  other : List (String × String)
deriving DecidableEq

/-- First value bound to key `k` in an association list (Python dict
lookup; exported dicts have unique keys). -/
def alGet (m : List (String × TrustAnchor)) (k : String) : Option TrustAnchor :=
  (m.find? (fun kv => kv.1 = k)).map (fun kv => kv.2)

/-- Python dict assignment `m[k] = v`: replace the value at `k` in
place when the key exists, else append the new binding. -/
def alSet (m : List (String × TrustAnchor)) (k : String) (v : TrustAnchor) :
    List (String × TrustAnchor) :=
  if m.any (fun kv => kv.1 = k) then
    m.map (fun kv => if kv.1 = k then (k, v) else kv)
  else m ++ [(k, v)]

/-! ### AnchorResolver -/

/-- Function `find_code_requirement_key` (ls_manage.py lines 53-87).  Returns
`Except.error` on the uncaught `IndexError` that `parts[cellar_index+1]`
raises when `"Cellar"` is the final path segment; only `ValueError`
from `parts.index` is caught.  Otherwise returns the first key of
`codeRequirements` containing both the package name and the
relative-path suffix, or `none`. -/
def find_code_requirement_key (fs : FileSystem) (config : Config)
    (binary_path : String) : Except String (Option String) :=
  let real_path := fs.realpath binary_path
  if strContains real_path "Cellar" then
    let parts := splitSlash real_path
    match parts.findIdx? (fun s => s = "Cellar") with
    | none => Except.ok none
    | some cellar_index =>
        if cellar_index + 1 < parts.length then
          let package_name := parts.getD (cellar_index + 1) ""
          let relative_path := String.intercalate "/" (parts.drop (cellar_index + 3))
          Except.ok (((config.codeRequirements.getD []).find?
            (fun kv => strContains kv.1 package_name &&
                       strContains kv.1 relative_path)).map (fun kv => kv.1))
        else Except.error "IndexError"
  else Except.ok none

/-! ### Clock model and `strftime`

`datetime.now()` returns the local wall-clock time (not UTC).  The
script formats it with `strftime("%Y-%m-%dT%H:%M:%SZ")`.  A `DT` is a
broken-down timestamp; the mutation core receives the two successive
`datetime.now()` readings its two calls observe. -/

structure DT where
  year : Nat
  month : Nat
  day : Nat
  hour : Nat
  minute : Nat
  second : Nat
deriving DecidableEq

/-- Zero-pad to two digits (`%m`, `%d`, `%H`, `%M`, `%S`). -/
def pad2 (n : Nat) : String :=
  if n < 10 then "0" ++ toString n else toString n

/-- Zero-pad to four digits (`%Y`). -/
def pad4 (n : Nat) : String :=
  if n < 10 then "000" ++ toString n
  else if n < 100 then "00" ++ toString n
  else if n < 1000 then "0" ++ toString n
  else toString n

/-- Python `t.strftime("%Y-%m-%dT%H:%M:%SZ")`. -/
def strftimeISO (t : DT) : String :=
  pad4 t.year ++ "-" ++ pad2 t.month ++ "-" ++ pad2 t.day ++ "T" ++
  pad2 t.hour ++ ":" ++ pad2 t.minute ++ ":" ++ pad2 t.second ++ "Z"

/-! ### ConfigMutator

The body of `update_rule` between reading the backup and writing the
modified file (ls_manage.py lines 120-179), split as the source is:
step 1 updates `codeRequirements`, step 2 appends the rule. -/

/-- The caller-supplied CLI arguments used by the mutation. -/
structure UpdateArgs where
  ports : String
  protocol : String
  direction : String
  remote : String
  replace : Bool
deriving DecidableEq

/-- The `new_rule` object of ls_manage.py lines 157-167.  Note the
source sets no `uid` key, and stamps `datetime.now()` (local time)
into both date fields through two separate calls. -/
def mkNewRule (binary_path : String) (args : UpdateArgs) (now1 now2 : DT) : Rule where
  action := some "allow"
  process := some binary_path
  ports := some args.ports
  protocol := some args.protocol
  direction := some args.direction
  remote := some args.remote
  origin := some "frontend"
  creationDate := some (strftimeISO now1)
  modificationDate := some (strftimeISO now2)
  uid := none

/-- Step 1 of `update_rule` (lines 120-150): reconcile the trust
anchor.  When a key is found, its entry is normalized in place
(`type` forced to `fileHash` with `authorIdentifier` deleted, then
`codeIdentifier` overwritten when it differs from the new hash); the
mutation happens through the live dict reference, so a `KeyError` on
the found key is modelled as an error (it cannot actually occur).
When no key is found, a fresh `fileHash` entry is inserted under the
resolved path, creating `codeRequirements` first when absent. -/
def anchorStep (fs : FileSystem) (config : Config)
    (binary_path resolved_path new_hash : String) :
    Except String Config := do
  let cr_key ← find_code_requirement_key fs config binary_path
  match cr_key with
  | some k =>
      match alGet (config.codeRequirements.getD []) k with
      | none => Except.error "KeyError"
      | some current_cr =>
          let cr1 :=
            if current_cr.type ≠ some "fileHash" then
              { current_cr with type := some "fileHash", authorIdentifier := none }
            else current_cr
          let cr2 :=
            if cr1.codeIdentifier ≠ some new_hash then
              { cr1 with codeIdentifier := some new_hash }
            else cr1
          Except.ok { config with
            codeRequirements := some (alSet (config.codeRequirements.getD []) k cr2) }
  | none =>
      Except.ok { config with
        codeRequirements := some (alSet (config.codeRequirements.getD [])
          resolved_path ⟨some "fileHash", some new_hash, none⟩) }

/-- Step 2 of `update_rule` (lines 152-179): build the new rule and
append it.  With `--replace`, `config["rules"]` is first reassigned to
the filtered list (so the later append always succeeds); without it,
line 179 `config["rules"].append(new_rule)` raises `KeyError` when the
model has no `rules` key (line 154 read it with a default, but line
179 does not). -/
def rulesStep (config : Config) (binary_path : String) (args : UpdateArgs)
    (now1 now2 : DT) : Except String Config :=
  let rules := config.rules.getD []
  let new_rule := mkNewRule binary_path args now1 now2
  if args.replace then
    let filtered := rules.filter (fun r => ¬ r.process = some binary_path)
    Except.ok { config with rules := some (filtered ++ [new_rule]) }
  else
    match config.rules with
    | none => Except.error "KeyError: rules"
    | some rs => Except.ok { config with rules := some (rs ++ [new_rule]) }

/-- The in-memory mutation performed by `update_rule` (lines 120-179):
anchor reconciliation followed by rule reconciliation. -/
def update_rule_core (fs : FileSystem) (config : Config)
    (binary_path resolved_path new_hash : String) (args : UpdateArgs)
    (now1 now2 : DT) : Except String Config := do
  let config1 ← anchorStep fs config binary_path resolved_path new_hash
  rulesStep config1 binary_path args now1 now2

/-! ### TransactionManager: the restore/rollback tail

`run_command` (ls_manage.py lines 16-23) runs a subprocess with
`check=True`.  A non-zero exit raises `CalledProcessError`, which
`run_command` catches and turns into `sys.exit(1)` — i.e. it raises
`SystemExit`, which in Python is *not* a subclass of `Exception`.  Any
other exception from `subprocess.run` (e.g. `FileNotFoundError` when
the command binary is missing) propagates out of `run_command`.

The restore tail of `update_rule` (lines 185-193) wraps the first
`restore_config` in `try ... except Exception`, so the rollback branch
runs only for ordinary exceptions, never for the `SystemExit` raised by
`run_command` on a failed restore command. -/

/-- How one invocation of the external store command behaves. -/
inductive CmdOutcome where
  /-- The command exits 0. -/
  | ok
  /-- The command exits non-zero (`CalledProcessError`). -/
  | cmdFail
  /-- Case where `subprocess.run` itself raises an ordinary `Exception`. -/
  | raiseExc
deriving DecidableEq

/-- Python control flow of an expression: a value, a raised
`SystemExit` (not caught by `except Exception`), or a raised ordinary
`Exception`. -/
inductive PyFlow (α : Type) where
  | val (a : α)
  | systemExit (code : Nat)
  | exc (msg : String)
deriving DecidableEq

/-- Function `run_command` (lines 16-23): returns stdout on success; on
`CalledProcessError` prints and calls `sys.exit(1)`; other exceptions
propagate. -/
def run_command (outcome : CmdOutcome) : PyFlow String :=
  match outcome with
  | .ok => .val "stdout"
  | .cmdFail => .systemExit 1
  | .raiseExc => .exc "Exception from subprocess.run"

/-- Function `restore_config` (lines 48-50): delegates to `run_command`. -/
def restore_config (outcome : CmdOutcome) : PyFlow Unit :=
  match run_command outcome with
  | .val _ => .val ()
  | .systemExit c => .systemExit c
  | .exc m => .exc m

/-- The restore tail of `update_rule` (lines 185-198), driven by the
behaviours of the successive `restore-model` invocations.  Returns the
list of file contents passed to `restore_config`, in call order, and
the final control flow (`.val ()` means the success message and exit
code 0). -/
def update_rule_restore (outcomes : Nat → CmdOutcome)
    (modified backup : Config) : List Config × PyFlow Unit :=
  match restore_config (outcomes 0) with
  | .val _ => ([modified], .val ())
  | .systemExit c => ([modified], .systemExit c)
  | .exc _ =>
      match restore_config (outcomes 1) with
      | .val _ => ([modified, backup], .systemExit 1)
      | .systemExit c => ([modified, backup], .systemExit c)
      | .exc m => ([modified, backup], .exc m)

/-! ### Association-list lemmas -/

theorem alGet_mem {m : List (String × TrustAnchor)} {k : String} {cr : TrustAnchor}
    (h : alGet m k = some cr) : (k, cr) ∈ m := by
  unfold alGet at h
  cases hf : m.find? (fun kv => kv.1 = k) with
  | none => rw [hf] at h; simp at h
  | some kv =>
      rw [hf] at h
      simp only [Option.map_some', Option.some.injEq] at h
      have hp := List.find?_some hf
      have hmem := List.mem_of_find?_eq_some hf
      simp only [decide_eq_true_eq] at hp
      have : kv = (k, cr) := by
        cases kv; simp_all
      rwa [this] at hmem

theorem alGet_any {m : List (String × TrustAnchor)} {k : String} {cr : TrustAnchor}
    (h : alGet m k = some cr) : m.any (fun kv => kv.1 = k) = true := by
  have hmem := alGet_mem h
  simp only [List.any_eq_true, decide_eq_true_eq]
  exact ⟨(k, cr), hmem, rfl⟩

theorem find_map_set_self (m : List (String × TrustAnchor)) (k : String)
    (v : TrustAnchor) (h : (m.find? (fun kv => kv.1 = k)).isSome = true) :
    (m.map (fun kv => if kv.1 = k then (k, v) else kv)).find?
      (fun kv => kv.1 = k) = some (k, v) := by
  induction m with
  | nil => simp at h
  | cons kv rest ih =>
      by_cases hk : kv.1 = k
      · simp only [List.map_cons, if_pos hk]
        exact List.find?_cons_of_pos _ (by simp)
      · simp only [List.map_cons, if_neg hk]
        rw [List.find?_cons_of_neg _ (by simpa using hk)]
        apply ih
        rwa [List.find?_cons_of_neg _ (by simpa using hk)] at h

theorem find_map_set_ne (m : List (String × TrustAnchor)) (k k' : String)
    (v : TrustAnchor) (hne : k' ≠ k) :
    (m.map (fun kv => if kv.1 = k then (k, v) else kv)).find?
      (fun kv => kv.1 = k') = m.find? (fun kv => kv.1 = k') := by
  induction m with
  | nil => rfl
  | cons kv rest ih =>
      by_cases hk : kv.1 = k
      · have h1 : ¬ ((k, v) : String × TrustAnchor).1 = k' := fun h => hne h.symm
        have h2 : ¬ kv.1 = k' := by rw [hk]; exact fun h => hne h.symm
        simp only [List.map_cons, if_pos hk]
        rw [List.find?_cons_of_neg _ (by simpa using h1),
            List.find?_cons_of_neg _ (by simpa using h2)]
        exact ih
      · simp only [List.map_cons, if_neg hk]
        by_cases hk' : kv.1 = k'
        · rw [List.find?_cons_of_pos _ (by simpa using hk'),
              List.find?_cons_of_pos _ (by simpa using hk')]
        · rw [List.find?_cons_of_neg _ (by simpa using hk'),
              List.find?_cons_of_neg _ (by simpa using hk')]
          exact ih

theorem alGet_alSet_self {m : List (String × TrustAnchor)} {k : String}
    {cr : TrustAnchor} (v : TrustAnchor) (h : alGet m k = some cr) :
    alGet (alSet m k v) k = some v := by
  unfold alSet
  rw [if_pos (alGet_any h)]
  unfold alGet
  rw [find_map_set_self m k v]
  · rfl
  · unfold alGet at h
    cases hf : m.find? (fun kv => kv.1 = k) with
    | none => rw [hf] at h; simp at h
    | some kv => simp

theorem alGet_alSet_ne (m : List (String × TrustAnchor)) (k k' : String)
    (v : TrustAnchor) (hne : k' ≠ k) :
    alGet (alSet m k v) k' = alGet m k' := by
  unfold alSet
  by_cases hany : m.any (fun kv => kv.1 = k) = true
  · rw [if_pos hany]
    unfold alGet
    rw [find_map_set_ne m k k' v hne]
  · rw [if_neg hany]
    unfold alGet
    rw [List.find?_append]
    cases hf : m.find? (fun kv => kv.1 = k') with
    | some kv => simp
    | none =>
        have h1 : (decide (((k, v) : String × TrustAnchor).1 = k')) = false := by
          simp only [decide_eq_false_iff_not]
          exact fun h => hne h.symm
        simp [List.find?, h1]

theorem mem_alSet {m : List (String × TrustAnchor)} {k : String}
    {v : TrustAnchor} {kv' : String × TrustAnchor} (h : kv' ∈ alSet m k v) :
    kv' ∈ m ∨ kv' = (k, v) := by
  unfold alSet at h
  by_cases hany : m.any (fun kv => kv.1 = k) = true
  · rw [if_pos hany] at h
    rcases List.mem_map.mp h with ⟨x, hx, hfx⟩
    by_cases hk : x.1 = k
    · right; rw [if_pos hk] at hfx; exact hfx.symm
    · left; rw [if_neg hk] at hfx; rwa [hfx] at hx
  · rw [if_neg hany] at h
    rcases List.mem_append.mp h with h | h
    · exact Or.inl h
    · right; simpa using h

/-! ### Frame lemmas for the two mutation steps -/

theorem anchorStep_frame {fs : FileSystem} {config : Config}
    {bp rp digest : String} {c1 : Config}
    (h : anchorStep fs config bp rp digest = Except.ok c1) :
    c1.rules = config.rules ∧ c1.other = config.other ∧
    ∃ k v, c1.codeRequirements =
      some (alSet (config.codeRequirements.getD []) k v) := by
  unfold anchorStep at h
  cases hf : find_code_requirement_key fs config bp with
  | error e => rw [hf] at h; exact absurd h (by simp [Bind.bind, Except.bind])
  | ok cr_key =>
      rw [hf] at h
      simp only [Bind.bind, Except.bind] at h
      match cr_key with
      | none =>
          simp only [Except.ok.injEq] at h
          subst h
          exact ⟨rfl, rfl, _, _, rfl⟩
      | some k =>
          simp only [] at h
          cases halg : alGet (config.codeRequirements.getD []) k with
          | none => rw [halg] at h; exact absurd h (by simp)
          | some current_cr =>
              rw [halg] at h
              simp only [Except.ok.injEq] at h
              subst h
              exact ⟨rfl, rfl, _, _, rfl⟩

theorem rulesStep_frame {config : Config} {bp : String} {args : UpdateArgs}
    {n1 n2 : DT} {c2 : Config}
    (h : rulesStep config bp args n1 n2 = Except.ok c2) :
    c2.codeRequirements = config.codeRequirements ∧ c2.other = config.other ∧
    c2.rules = some ((if args.replace then
        (config.rules.getD []).filter (fun r => ¬ r.process = some bp)
      else config.rules.getD []) ++ [mkNewRule bp args n1 n2]) := by
  unfold rulesStep at h
  by_cases hr : args.replace
  · rw [if_pos hr] at h
    simp only [Except.ok.injEq] at h
    subst h
    exact ⟨rfl, rfl, by rw [if_pos hr]⟩
  · rw [if_neg hr] at h
    cases hrs : config.rules with
    | none => rw [hrs] at h; exact absurd h (by simp)
    | some rs =>
        rw [hrs] at h
        simp only [Except.ok.injEq] at h
        subst h
        exact ⟨rfl, rfl, by simp [if_neg hr, hrs]⟩

theorem update_rule_core_decomp {fs : FileSystem} {config : Config}
    {bp rp digest : String} {args : UpdateArgs} {n1 n2 : DT} {m' : Config}
    (h : update_rule_core fs config bp rp digest args n1 n2 = Except.ok m') :
    ∃ c1, anchorStep fs config bp rp digest = Except.ok c1 ∧
      rulesStep c1 bp args n1 n2 = Except.ok m' := by
  unfold update_rule_core at h
  cases ha : anchorStep fs config bp rp digest with
  | error e => rw [ha] at h; exact absurd h (by simp [Bind.bind, Except.bind])
  | ok c1 =>
      rw [ha] at h
      simp only [Bind.bind, Except.bind] at h
      exact ⟨c1, rfl, h⟩

/-! ### The trust-anchor invariant -/

/-- A character from the lowercase hex alphabet. -/
def isLowerHexChar (c : Char) : Bool :=
  "0123456789abcdef".data.contains c

/-- All characters of `s` are lowercase hex digits. -/
def isLowerHex (s : String) : Bool :=
  s.data.all isLowerHexChar

/-- The TrustAnchor invariant: a `fileHash` anchor carries a lowercase
hex `codeIdentifier` and no `authorIdentifier`. -/
def anchorOKb (t : TrustAnchor) : Bool :=
  if t.type = some "fileHash" then
    (match t.codeIdentifier with
     | some s => isLowerHex s
     | none => false) && decide (t.authorIdentifier = none)
  else true

/-- The invariant over the whole model. -/
def configAnchorsOK (c : Config) : Bool :=
  (c.codeRequirements.getD []).all (fun kv => anchorOKb kv.2)

/-! ### Concrete fixtures used by witnesses and counterexamples -/

/-- A filesystem with no symlinks. -/
def idFs : FileSystem where
  realpath := fun p => p
  files := fun _ => none
  realpath_idem := fun _ => rfl

/-- A filesystem in which `/usr/local/bin/tool` is a symlink to
`/opt/pkg/tool`, whose content is the three bytes `[1, 2, 3]`. -/
def demoFs : FileSystem where
  realpath := fun p => if p = "/usr/local/bin/tool" then "/opt/pkg/tool" else p
  files := fun p => if p = "/opt/pkg/tool" then some [1, 2, 3] else none
  realpath_idem := by
    intro p
    by_cases h : p = "/usr/local/bin/tool" <;> simp [h]

/-- A filesystem in which `/usr/local/bin/mosh-server` resolves to a
versioned Cellar install path. -/
def moshFs : FileSystem where
  realpath := fun p =>
    if p = "/usr/local/bin/mosh-server" then
      "/usr/local/Cellar/mosh/1.4.0/bin/mosh-server"
    else p
  files := fun _ => none
  realpath_idem := by
    intro p
    by_cases h : p = "/usr/local/bin/mosh-server" <;> simp [h]

/-- A model holding the wildcard mosh anchor key. -/
def moshConfig : Config where
  codeRequirements :=
    some [("path.usr/local/Cellar/mosh/*/bin/mosh-server",
           ⟨some "trustedAnchor", some "OLDHASH", some "anchor apple generic"⟩)]
  rules := some []
  other := []

/-- The spec's end-to-end argument set: `--ports 60000-61000`, default
protocol/direction/remote, no `--replace`. -/
def args60 : UpdateArgs where
  ports := "60000-61000"
  protocol := "udp"
  direction := "both"
  remote := "any"
  replace := false

/-- The same arguments with `--replace`. -/
def args60r : UpdateArgs := { args60 with replace := true }

/-- A fixed local-clock reading, five hours ahead of UTC. -/
def localT : DT := ⟨2024, 1, 1, 5, 0, 0⟩

/-- The UTC instant at which `localT` is observed. -/
def utcT : DT := ⟨2024, 1, 1, 0, 0, 0⟩

/-- An empty exported model. -/
def emptyConfig : Config := ⟨some [], some [], []⟩

theorem mem_wordBytesBE_lt {w b : Nat} (h : b ∈ wordBytesBE w) : b < 256 := by
  simp only [wordBytesBE, List.mem_cons, List.not_mem_nil, or_false] at h
  rcases h with h | h | h | h <;> subst h <;> exact Nat.mod_lt _ (by omega)

theorem isLowerHexChar_hexDigit {n : Nat} (h : n < 16) :
    isLowerHexChar (hexDigit n) = true := by
  interval_cases n <;> rfl

/-- The digest string `hashlib` produces is always lowercase hex. -/
theorem sha256hex_isLowerHex (msg : List Nat) :
    isLowerHex (sha256hex msg) = true := by
  have hb : ∀ b ∈ sha256Bytes msg, b < 256 := by
    intro b hbm
    simp only [sha256Bytes, List.mem_append] at hbm
    rcases hbm with ((((((h | h) | h) | h) | h) | h) | h) | h <;>
      exact mem_wordBytesBE_lt h
  simp only [isLowerHex, sha256hex, List.all_eq_true]
  intro c hc
  have hc' : c ∈ ((sha256Bytes msg).map byteToHex).flatten := hc
  rw [List.mem_flatten] at hc'
  obtain ⟨l, hl, hcl⟩ := hc'
  rw [List.mem_map] at hl
  obtain ⟨b, hbmem, rfl⟩ := hl
  have hb256 := hb b hbmem
  simp only [byteToHex, List.mem_cons, List.not_mem_nil, or_false] at hcl
  rcases hcl with rfl | rfl
  · exact isLowerHexChar_hexDigit (Nat.div_lt_of_lt_mul (by omega))
  · exact isLowerHexChar_hexDigit (Nat.mod_lt _ (by omega))

/-! ### Claim theorems -/

/-- C1: the claim says every rule constructed by the update operation
carries a `uid` field equal to the invoking user's numeric identifier,
besides `action=allow`, `origin=frontend` and the caller-supplied
ports/protocol/direction/remote.  The code does set the latter fields,
but builds the rule with no `uid` key at all (its own test suite
asserts `rule["uid"] == os.getuid()`): the constructed rule's `uid` is
`none` for every invocation, as the final conjunct also shows on the
spec's end-to-end scenario. -/
theorem update_rule_new_rule_fields (bp : String) (args : UpdateArgs) (n1 n2 : DT) :
    (mkNewRule bp args n1 n2).uid = none ∧
    (mkNewRule bp args n1 n2).action = some "allow" ∧
    (mkNewRule bp args n1 n2).origin = some "frontend" ∧
    (mkNewRule bp args n1 n2).process = some bp ∧
    (mkNewRule bp args n1 n2).ports = some args.ports ∧
    (mkNewRule bp args n1 n2).protocol = some args.protocol ∧
    (mkNewRule bp args n1 n2).direction = some args.direction ∧
    (mkNewRule bp args n1 n2).remote = some args.remote ∧
    Except.map (fun c => (c.rules.getD []).map Rule.uid)
      (update_rule_core idFs emptyConfig "/usr/local/bin/srv" "/usr/local/bin/srv"
        "ab" args60 localT localT) = Except.ok [none] :=
  ⟨rfl, rfl, rfl, rfl, rfl, rfl, rfl, rfl, rfl⟩

/-- C2: the claim says a failed post-mutation restore triggers a second
restore call with the pre-mutation backup.  In the code, a restore
command exiting non-zero raises `CalledProcessError` inside
`run_command`, which calls `sys.exit(1)`; the resulting `SystemExit` is
not an `Exception`, so `update_rule`'s `except Exception` rollback
never runs: the call trace contains only the single restore of the
modified file, and the process exits 1 without touching the backup. -/
theorem restore_failure_no_rollback :
    update_rule_restore (fun _ => CmdOutcome.cmdFail) moshConfig emptyConfig =
      ([moshConfig], PyFlow.systemExit 1) := rfl

/-- C3: the claim says a model missing `rules` or `codeRequirements` is
treated as empty and the update completes for both replace-flag values.
With `--replace` it does (first conjunct, on a model missing both
keys); without `--replace`, line 179 `config["rules"].append(...)`
raises `KeyError` on a model with no `rules` key (second conjunct),
even though line 154 read the key with an empty default. -/
theorem missing_rules_key_crash :
    update_rule_core idFs ⟨none, none, []⟩ "/usr/bin/y" "/usr/bin/y" "0a"
        args60r localT localT =
      Except.ok ⟨some [("/usr/bin/y", ⟨some "fileHash", some "0a", none⟩)],
                 some [mkNewRule "/usr/bin/y" args60r localT localT], []⟩ ∧
    update_rule_core idFs ⟨none, none, []⟩ "/usr/bin/y" "/usr/bin/y" "0a"
        args60 localT localT =
      Except.error "KeyError: rules" :=
  ⟨rfl, rfl⟩

/-- C9: the claim says both date fields hold the current UTC time in
`YYYY-MM-DDThh:mm:ssZ` form.  The code formats `datetime.now()` — the
local wall-clock reading — with a literal `Z` suffix: on a clock five
hours ahead of UTC the stamped strings show the local time, not the
UTC time the claimed `Z` designator asserts.  The `origin=frontend`
part does hold. -/
theorem date_fields_local_not_utc :
    (mkNewRule "/usr/bin/y" args60 localT localT).creationDate =
      some "2024-01-01T05:00:00Z" ∧
    (mkNewRule "/usr/bin/y" args60 localT localT).modificationDate =
      some "2024-01-01T05:00:00Z" ∧
    strftimeISO utcT = "2024-01-01T00:00:00Z" ∧
    ¬ (mkNewRule "/usr/bin/y" args60 localT localT).creationDate =
      some (strftimeISO utcT) ∧
    (mkNewRule "/usr/bin/y" args60 localT localT).origin = some "frontend" := by
  refine ⟨rfl, rfl, rfl, ?_, rfl⟩
  decide

/-- C5: `get_binary_hash` returns the hex SHA-256 digest of the full
content of the file the path resolves to; two paths resolving to
identical bytes yield equal digests, and hashing a symlink equals
hashing its resolved target. -/
theorem get_binary_hash_sha256 (fs : FileSystem) (p q l : String) (c : List Nat)
    (hp : fs.files (fs.realpath p) = some c)
    (hq : fs.files (fs.realpath q) = some c) :
    get_binary_hash fs p = some (sha256hex c) ∧
    get_binary_hash fs p = get_binary_hash fs q ∧
    get_binary_hash fs l = get_binary_hash fs (fs.realpath l) := by
  refine ⟨get_binary_hash_eq fs p c hp, ?_, ?_⟩
  · rw [get_binary_hash_eq fs p c hp, get_binary_hash_eq fs q c hq]
  · unfold get_binary_hash
    rw [fs.realpath_idem]

/-- Witness for C5 on a concrete filesystem: a symlink and its target
holding the bytes `[1, 2, 3]`. -/
theorem get_binary_hash_sha256_w :
    get_binary_hash demoFs "/usr/local/bin/tool" = some (sha256hex [1, 2, 3]) ∧
    get_binary_hash demoFs "/usr/local/bin/tool" =
      get_binary_hash demoFs "/opt/pkg/tool" ∧
    get_binary_hash demoFs "/bin/ls" =
      get_binary_hash demoFs (demoFs.realpath "/bin/ls") :=
  get_binary_hash_sha256 demoFs "/usr/local/bin/tool" "/opt/pkg/tool" "/bin/ls"
    [1, 2, 3] rfl rfl

/-- C6: the resolver returns `none` whenever the resolved path has no
`Cellar` segment, whatever the model holds; and on the mosh example it
returns the stored wildcard key. -/
theorem find_code_requirement_key_spec (fs : FileSystem) (config : Config)
    (p : String) (h : strContains (fs.realpath p) "Cellar" = false) :
    find_code_requirement_key fs config p = Except.ok none ∧
    find_code_requirement_key moshFs moshConfig "/usr/local/bin/mosh-server" =
      Except.ok (some "path.usr/local/Cellar/mosh/*/bin/mosh-server") := by
  constructor
  · unfold find_code_requirement_key
    simp [h]
  · rfl

/-- Witness for C6: a non-Cellar path against the mosh model. -/
theorem find_code_requirement_key_spec_w :
    find_code_requirement_key idFs moshConfig "/usr/bin/zsh" = Except.ok none ∧
    find_code_requirement_key moshFs moshConfig "/usr/local/bin/mosh-server" =
      Except.ok (some "path.usr/local/Cellar/mosh/*/bin/mosh-server") :=
  find_code_requirement_key_spec idFs moshConfig "/usr/bin/zsh" rfl

/-- C7: when a key is resolved, a `trustedAnchor` entry carrying an
`authorIdentifier` is rewritten to a `fileHash` entry holding exactly
the supplied digest with the `authorIdentifier` removed; an entry
already of type `fileHash` whose `codeIdentifier` differs from the
digest gets its `codeIdentifier` overwritten. -/
theorem anchorStep_normalizes (fs : FileSystem) (config : Config)
    (bp rp digest k author : String) (cr : TrustAnchor)
    (hk : find_code_requirement_key fs config bp = Except.ok (some k))
    (hget : alGet (config.codeRequirements.getD []) k = some cr) :
    (cr.type = some "trustedAnchor" → cr.authorIdentifier = some author →
      anchorStep fs config bp rp digest = Except.ok { config with
        codeRequirements := some (alSet (config.codeRequirements.getD []) k
          ⟨some "fileHash", some digest, none⟩) }) ∧
    (cr.type = some "fileHash" → ¬ cr.codeIdentifier = some digest →
      anchorStep fs config bp rp digest = Except.ok { config with
        codeRequirements := some (alSet (config.codeRequirements.getD []) k
          { cr with codeIdentifier := some digest }) }) := by
  constructor
  · intro htype hauth
    unfold anchorStep
    rw [hk]
    simp only [Bind.bind, Except.bind, hget]
    obtain ⟨ct, cci, cai⟩ := cr
    simp only [] at htype hauth
    subst htype
    subst hauth
    by_cases hci : cci = some digest
    · subst hci
      simp
    · simp [hci]
  · intro htype hci
    unfold anchorStep
    rw [hk]
    simp only [Bind.bind, Except.bind, hget]
    obtain ⟨ct, cci, cai⟩ := cr
    simp only [] at htype hci
    subst htype
    simp [hci]

/-- Witness for C7: the mosh model's `trustedAnchor` entry is rewritten
to a pure `fileHash` entry for the supplied digest. -/
theorem anchorStep_normalizes_w :
    anchorStep moshFs moshConfig "/usr/local/bin/mosh-server"
        "/usr/local/Cellar/mosh/1.4.0/bin/mosh-server" "ab" =
      Except.ok { moshConfig with
        codeRequirements := some (alSet (moshConfig.codeRequirements.getD [])
          "path.usr/local/Cellar/mosh/*/bin/mosh-server"
          ⟨some "fileHash", some "ab", none⟩) } :=
  (anchorStep_normalizes moshFs moshConfig "/usr/local/bin/mosh-server"
    "/usr/local/Cellar/mosh/1.4.0/bin/mosh-server" "ab"
    "path.usr/local/Cellar/mosh/*/bin/mosh-server" "anchor apple generic"
    ⟨some "trustedAnchor", some "OLDHASH", some "anchor apple generic"⟩
    rfl rfl).1 rfl rfl

theorem anchorStep_inv {fs : FileSystem} {config : Config}
    {bp rp digest : String} {c1 : Config}
    (hinv : configAnchorsOK config = true) (hdig : isLowerHex digest = true)
    (h : anchorStep fs config bp rp digest = Except.ok c1) :
    configAnchorsOK c1 = true := by
  simp only [configAnchorsOK, List.all_eq_true] at hinv ⊢
  unfold anchorStep at h
  cases hf : find_code_requirement_key fs config bp with
  | error e => rw [hf] at h; exact absurd h (by simp [Bind.bind, Except.bind])
  | ok cr_key =>
      rw [hf] at h
      simp only [Bind.bind, Except.bind] at h
      match cr_key with
      | none =>
          simp only [Except.ok.injEq] at h
          subst h
          intro kv hkv
          simp only [Option.getD_some] at hkv
          rcases mem_alSet hkv with hm | hm
          · exact hinv kv hm
          · subst hm
            simp [anchorOKb, hdig]
      | some k =>
          simp only [] at h
          cases halg : alGet (config.codeRequirements.getD []) k with
          | none => rw [halg] at h; exact absurd h (by simp)
          | some cr =>
              rw [halg] at h
              have hcrOK : anchorOKb cr = true := hinv (k, cr) (alGet_mem halg)
              obtain ⟨ct, cci, cai⟩ := cr
              by_cases ht : ct = some "fileHash"
              · subst ht
                by_cases hci : cci = some digest
                · subst hci
                  simp only [ne_eq, not_true_eq_false, if_neg, if_false,
                    not_false_eq_true, Except.ok.injEq] at h
                  subst h
                  intro kv hkv
                  simp only [Option.getD_some] at hkv
                  rcases mem_alSet hkv with hm | hm
                  · exact hinv kv hm
                  · subst hm
                    simpa using hcrOK
                · simp only [ne_eq, not_true_eq_false, if_false, hci,
                    not_false_eq_true, if_true, Except.ok.injEq] at h
                  subst h
                  intro kv hkv
                  simp only [Option.getD_some] at hkv
                  rcases mem_alSet hkv with hm | hm
                  · exact hinv kv hm
                  · subst hm
                    simp [anchorOKb, hdig] at hcrOK ⊢
                    exact hcrOK.2
              · by_cases hci : cci = some digest
                · subst hci
                  simp only [ne_eq, ht, not_false_eq_true, if_true,
                    not_true_eq_false, if_false, Except.ok.injEq] at h
                  subst h
                  intro kv hkv
                  simp only [Option.getD_some] at hkv
                  rcases mem_alSet hkv with hm | hm
                  · exact hinv kv hm
                  · subst hm
                    simp [anchorOKb, hdig]
                · simp only [ne_eq, ht, not_false_eq_true, if_true, hci,
                    Except.ok.injEq] at h
                  subst h
                  intro kv hkv
                  simp only [Option.getD_some] at hkv
                  rcases mem_alSet hkv with hm | hm
                  · exact hinv kv hm
                  · subst hm
                    simp [anchorOKb, hdig]

/-- C8: the TrustAnchor invariant (every `fileHash` anchor carries a
lowercase-hex `codeIdentifier` and no `authorIdentifier`) is preserved
by the mutation whenever the supplied digest is lowercase hex — which
`get_binary_hash`'s output always is. -/
theorem update_rule_core_anchor_invariant (fs : FileSystem) (config : Config)
    (bp rp digest : String) (args : UpdateArgs) (n1 n2 : DT) (m' : Config)
    (hinv : configAnchorsOK config = true)
    (hdig : isLowerHex digest = true)
    (hok : update_rule_core fs config bp rp digest args n1 n2 = Except.ok m') :
    configAnchorsOK m' = true := by
  obtain ⟨c1, ha, hr⟩ := update_rule_core_decomp hok
  obtain ⟨hcrs, -, -⟩ := rulesStep_frame hr
  have h1 := anchorStep_inv hinv hdig ha
  unfold configAnchorsOK at h1 ⊢
  rwa [hcrs]

/-- Witness for C8: the invariant holds of the mutated empty model. -/
theorem update_rule_core_anchor_invariant_w :
    configAnchorsOK ⟨some [("/usr/bin/y", ⟨some "fileHash", some "0a", none⟩)],
      some [mkNewRule "/usr/bin/y" args60r localT localT], []⟩ = true :=
  update_rule_core_anchor_invariant idFs emptyConfig "/usr/bin/y" "/usr/bin/y"
    "0a" args60r localT localT
    ⟨some [("/usr/bin/y", ⟨some "fileHash", some "0a", none⟩)],
     some [mkNewRule "/usr/bin/y" args60r localT localT], []⟩
    rfl rfl rfl

/-- A pre-existing rule for `/usr/bin/x`. -/
def ruleX : Rule where
  action := some "allow"
  process := some "/usr/bin/x"
  ports := some "22"
  protocol := some "tcp"
  direction := some "both"
  remote := some "any"
  origin := some "frontend"
  creationDate := none
  modificationDate := none
  uid := none

/-- A model holding one rule for `/usr/bin/x`. -/
def cfgX : Config := ⟨some [], some [ruleX], []⟩

/-- C4 counterexample: with `replaceExisting=false` on a model whose
`rules` key is absent, the update does not append a rule — it raises
`KeyError` and produces no model at all, so the appended-rule clause of
the claim fails for that model. -/
theorem replace_false_missing_rules_cex :
    ¬ ∃ m', update_rule_core idFs ⟨some [], none, []⟩ "/usr/bin/x" "/usr/bin/x"
        "ab" { args60 with ports := "8080" } localT localT = Except.ok m' := by
  intro hex
  obtain ⟨m', hm⟩ := hex
  have he : update_rule_core idFs ⟨some [], none, []⟩ "/usr/bin/x" "/usr/bin/x"
      "ab" { args60 with ports := "8080" } localT localT =
      Except.error "KeyError: rules" := rfl
  rw [he] at hm
  exact Except.noConfusion hm

/-- C4 (amended): whenever the update completes, `replaceExisting=true`
leaves exactly one rule whose `process` equals the supplied path, and
`replaceExisting=false` appends the new rule after all pre-existing
rules (kept verbatim), so the count of rules for that process grows by
one. -/
theorem update_rule_replace_semantics (fs : FileSystem) (config : Config)
    (bp rp digest : String) (args : UpdateArgs) (n1 n2 : DT) (m' : Config)
    (hok : update_rule_core fs config bp rp digest args n1 n2 = Except.ok m') :
    (args.replace = true →
      (m'.rules.getD []).countP (fun r => decide (r.process = some bp)) = 1) ∧
    (args.replace = false →
      m'.rules = some (config.rules.getD [] ++ [mkNewRule bp args n1 n2]) ∧
      (m'.rules.getD []).countP (fun r => decide (r.process = some bp)) =
        (config.rules.getD []).countP (fun r => decide (r.process = some bp)) + 1) := by
  obtain ⟨c1, ha, hr⟩ := update_rule_core_decomp hok
  obtain ⟨h1r, h1o, -⟩ := anchorStep_frame ha
  obtain ⟨h2c, h2o, h2r⟩ := rulesStep_frame hr
  rw [h1r] at h2r
  constructor
  · intro hrep
    rw [h2r, if_pos hrep]
    simp only [Option.getD_some]
    rw [List.countP_append]
    have hz : ((config.rules.getD []).filter
        (fun r => ¬ r.process = some bp)).countP
        (fun r => decide (r.process = some bp)) = 0 := by
      rw [List.countP_eq_zero]
      intro r hrr
      have := (List.mem_filter.mp hrr).2
      simp only [decide_not, Bool.not_eq_true', decide_eq_false_iff_not] at this
      simpa using this
    rw [hz]
    simp [mkNewRule, List.countP_cons]
  · intro hrep
    rw [h2r, if_neg (by simp [hrep])]
    refine ⟨rfl, ?_⟩
    simp only [Option.getD_some]
    rw [List.countP_append]
    simp [mkNewRule, List.countP_cons]

/-- Witness for C4's amended theorem: replacing on a model with one
rule for `/usr/bin/x` ends with exactly one rule for it. -/
theorem update_rule_replace_semantics_w :
    (args60r.replace = true →
      (((⟨some [("/usr/bin/x", ⟨some "fileHash", some "ab", none⟩)],
          some [mkNewRule "/usr/bin/x" args60r localT localT], []⟩ : Config).rules.getD
          []).countP (fun r => decide (r.process = some "/usr/bin/x")) = 1)) ∧
    (args60r.replace = false →
      (⟨some [("/usr/bin/x", ⟨some "fileHash", some "ab", none⟩)],
        some [mkNewRule "/usr/bin/x" args60r localT localT], []⟩ : Config).rules =
        some (cfgX.rules.getD [] ++ [mkNewRule "/usr/bin/x" args60r localT localT]) ∧
      (((⟨some [("/usr/bin/x", ⟨some "fileHash", some "ab", none⟩)],
          some [mkNewRule "/usr/bin/x" args60r localT localT], []⟩ : Config).rules.getD
          []).countP (fun r => decide (r.process = some "/usr/bin/x")) =
        (cfgX.rules.getD []).countP
          (fun r => decide (r.process = some "/usr/bin/x")) + 1)) :=
  update_rule_replace_semantics idFs cfgX "/usr/bin/x" "/usr/bin/x" "ab" args60r
    localT localT
    ⟨some [("/usr/bin/x", ⟨some "fileHash", some "ab", none⟩)],
     some [mkNewRule "/usr/bin/x" args60r localT localT], []⟩ rfl

/-- C10: frame property.  On success, the rules list is exactly the
(possibly filtered) original list with the new rule appended last — so
every rule for another process is kept verbatim in its original
relative order; the `codeRequirements` map is the original with a
single entry written (all lookups at other keys unchanged); and every
other top-level field of the model is untouched. -/
theorem update_rule_core_frame (fs : FileSystem) (config : Config)
    (bp rp digest : String) (args : UpdateArgs) (n1 n2 : DT) (m' : Config)
    (hok : update_rule_core fs config bp rp digest args n1 n2 = Except.ok m') :
    m'.rules = some ((if args.replace then
        (config.rules.getD []).filter (fun r => ¬ r.process = some bp)
      else config.rules.getD []) ++ [mkNewRule bp args n1 n2]) ∧
    (∃ k v, m'.codeRequirements =
        some (alSet (config.codeRequirements.getD []) k v) ∧
      ∀ k', ¬ k' = k →
        alGet (m'.codeRequirements.getD []) k' =
          alGet (config.codeRequirements.getD []) k') ∧
    m'.other = config.other := by
  obtain ⟨c1, ha, hr⟩ := update_rule_core_decomp hok
  obtain ⟨h1r, h1o, k, v, h1c⟩ := anchorStep_frame ha
  obtain ⟨h2c, h2o, h2r⟩ := rulesStep_frame hr
  refine ⟨?_, ⟨k, v, ?_, ?_⟩, by rw [h2o, h1o]⟩
  · rw [h2r, h1r]
  · rw [h2c, h1c]
  · intro k' hk'
    rw [h2c, h1c]
    simp only [Option.getD_some]
    exact alGet_alSet_ne _ k k' v hk'

/-- Witness for C10 on the one-rule model. -/
theorem update_rule_core_frame_w :
    (⟨some [("/usr/bin/z", ⟨some "fileHash", some "0a", none⟩)],
       some [ruleX, mkNewRule "/usr/bin/z" args60 localT localT], []⟩ : Config).rules =
      some ((if args60.replace then
          (cfgX.rules.getD []).filter (fun r => ¬ r.process = some "/usr/bin/z")
        else cfgX.rules.getD []) ++ [mkNewRule "/usr/bin/z" args60 localT localT]) ∧
    (∃ k v, (⟨some [("/usr/bin/z", ⟨some "fileHash", some "0a", none⟩)],
        some [ruleX, mkNewRule "/usr/bin/z" args60 localT localT], []⟩ : Config).codeRequirements =
        some (alSet (cfgX.codeRequirements.getD []) k v) ∧
      ∀ k', ¬ k' = k →
        alGet ((⟨some [("/usr/bin/z", ⟨some "fileHash", some "0a", none⟩)],
          some [ruleX, mkNewRule "/usr/bin/z" args60 localT localT], []⟩ : Config).codeRequirements.getD
            []) k' = alGet (cfgX.codeRequirements.getD []) k') ∧
    (⟨some [("/usr/bin/z", ⟨some "fileHash", some "0a", none⟩)],
       some [ruleX, mkNewRule "/usr/bin/z" args60 localT localT], []⟩ : Config).other =
      cfgX.other :=
  update_rule_core_frame idFs cfgX "/usr/bin/z" "/usr/bin/z" "0a" args60
    localT localT
    ⟨some [("/usr/bin/z", ⟨some "fileHash", some "0a", none⟩)],
     some [ruleX, mkNewRule "/usr/bin/z" args60 localT localT], []⟩ rfl

end LsManage
